import Mathlib

/-!
Verification of the Munshiji expense-tracker data store and navigation
controller (`app.js`) against its specification.

Embedding conventions:
* A JavaScript `Date` value (always normalized by the engine) is `JSDate`:
  calendar year, 0-based month, day of month, and the time of day collapsed
  to a single `time` component; `Date` comparison is timestamp comparison,
  which on normalized dates is lexicographic in these fields.
* The `date` field of a stored expense is kept as the result of `new Date(s)`
  on the stored string: `DateField.missing` for an absent/empty (falsy) field,
  `DateField.invalid` for a truthy string that parses to an Invalid Date, and
  `DateField.valid d` for a string parsing to the date `d`.
* JavaScript numbers are modelled as rationals; `parseFloat` of an expense
  amount is `AmountField`: `.num q` when it parses, `.nan` otherwise.
* A JavaScript object used as a map is an association list in insertion
  order; setting an existing key overwrites in place, a missing key appends.
* Each operation takes the store record and returns the updated record;
  `localStorage` read/parse/write is modelled separately (`JDoc`) for the
  persistence round-trip. Functions of the current time take it explicitly.
-/

namespace Munshiji

/-- Semantic value of a valid JavaScript `Date`: `month` is 0-based as in
`getMonth()`, `day` is the day of month, `time` the time of day (ms). -/
structure JSDate where
  year : Int
  month : Fin 12
  day : Nat
  time : Nat
deriving DecidableEq

/-- Timestamp comparison `a <= b` of two valid dates; on normalized dates it
is lexicographic in year, month, day, time. -/
def jsDateLE (a b : JSDate) : Bool :=
  if a.year ≠ b.year then decide (a.year < b.year)
  else if a.month ≠ b.month then decide (a.month.val < b.month.val)
  else if a.day ≠ b.day then decide (a.day < b.day)
  else decide (a.time ≤ b.time)

/-- Month index `12 * year + month`, the calendar-month granularity of a date. -/
def monthIdx (d : JSDate) : Int := 12 * d.year + d.month.val

/-- Gregorian leap-year rule, as implemented by JavaScript dates. -/
def isLeapYear (y : Int) : Bool :=
  (y % 4 == 0 && y % 100 != 0) || y % 400 == 0

/-- Number of days of month `m` (0-based) of year `y`. -/
def daysInMonth (y : Int) (m : Fin 12) : Nat :=
  if m.val = 1 then (if isLeapYear y then 29 else 28)
  else if m.val = 3 ∨ m.val = 5 ∨ m.val = 8 ∨ m.val = 10 then 30
  else 31

/-- Effect of `d.setMonth(d.getMonth() - 12)`: same month of the previous
year, with the day-of-month overflowing into the following month when the
target month is shorter (JavaScript date normalization). -/
def minus12Months (d : JSDate) : JSDate :=
  let y := d.year - 1
  let dim := daysInMonth y d.month
  if d.day ≤ dim then ⟨y, d.month, d.day, d.time⟩
  else if h : d.month.val + 1 < 12 then ⟨y, ⟨d.month.val + 1, h⟩, d.day - dim, d.time⟩
  else ⟨y + 1, ⟨0, by omega⟩, d.day - dim, d.time⟩

/-- Stored `date` field of an expense, as seen through `new Date(field)`:
`missing` when the field is absent or empty (falsy), `invalid` when it is a
truthy string giving an Invalid Date, `valid d` otherwise. -/
inductive DateField where
  | missing : DateField
  | invalid : DateField
  | valid : JSDate → DateField
deriving DecidableEq

/-- Stored `amount` field, as seen through `parseFloat`. -/
inductive AmountField where
  | nan : AmountField
  | num : ℚ → AmountField
deriving DecidableEq

/-- Expense record. `category` and `comment` are `none` when absent. -/
structure Expense where
  id : String
  date : DateField
  category : Option String
  amount : AmountField
  comment : Option String
deriving DecidableEq

/-- Root record `{ expenses, categories, income, limits }`. -/
structure StoredData where
  expenses : List Expense
  categories : List String
  income : List (String × ℚ)
  limits : List (String × List (String × ℚ))
deriving DecidableEq

/-- The empty default record. -/
def emptyData : StoredData := ⟨[], [], [], []⟩

/-- Truthiness of an optional string field: absent and empty are falsy. -/
def optFalsy : Option String → Bool
  | none => true
  | some s => s == ""

/-- Truthiness of the date field: only an absent/empty field is falsy. -/
def dateFieldFalsy : DateField → Bool
  | .missing => true
  | _ => false

/-- Comparison `new Date(e.date) >= cutoff`: false for Invalid Date (NaN). -/
def dateFieldGE (f : DateField) (cutoff : JSDate) : Bool :=
  match f with
  | .valid d => jsDateLE cutoff d
  | _ => false

/-- Pad a month number to two digits, as `String(m).padStart(2, '0')`. -/
def pad2 (n : Nat) : String :=
  (if n < 10 then "0" else "") ++ toString n

/-- Month key `YYYY-MM` of a date (`getMonthKey`). -/
def getMonthKey (d : JSDate) : String :=
  toString d.year ++ "-" ++ pad2 (d.month.val + 1)

/-- Month key derived from a stored date field; an Invalid Date yields
`"NaN-NaN"` since `getFullYear()` and `getMonth()` are NaN. -/
def dateFieldMonthKey : DateField → String
  | .valid d => getMonthKey d
  | _ => "NaN-NaN"

/-- Month key of an expense as the specification reads it: none when the
date field is missing, otherwise the derived key. -/
def expenseMonthKey (e : Expense) : Option String :=
  match e.date with
  | .missing => none
  | .invalid => some "NaN-NaN"
  | .valid d => some (getMonthKey d)

/-- Value of `monthKey || this.getMonthKey()`: the argument unless it is
null (`none`) or empty (falsy), else the current month key. -/
def getMonthKeyD (monthKey : Option String) (now : JSDate) : String :=
  match monthKey with
  | some k => if k = "" then getMonthKey now else k
  | none => getMonthKey now

/-- Amount contributed to a total: `isNaN(amt) ? 0 : amt`. -/
def amountOrZero : AmountField → ℚ
  | .nan => 0
  | .num q => q

/-- Startup cleanup: retains exactly the expenses whose date parses as a
valid date not before `now` minus 12 calendar months. The source's guard
for a missing `expenses` field concerns malformed persisted documents,
which the record model excludes. -/
def cleanupOldData (s : StoredData) (now : JSDate) : StoredData :=
  let twelveMonthsAgo := minus12Months now
  { s with expenses := s.expenses.filter (fun e => dateFieldGE e.date twelveMonthsAgo) }

/-- Draft passed to `addExpense` (no id; the store assigns it). -/
structure ExpenseDraft where
  date : DateField
  category : Option String
  amount : AmountField
  comment : Option String
deriving DecidableEq

/-- Adding an expense: the id is `Date.now().toString()` for the current
clock reading `nowMs`; a falsy draft date defaults to the ISO string of
the current time `now`; the record is appended. Returns the stored record. -/
def addExpense (s : StoredData) (draft : ExpenseDraft) (nowMs : Nat) (now : JSDate) :
    Expense × StoredData :=
  let e : Expense :=
    { id := Nat.repr nowMs
      date := match draft.date with
        | .missing => .valid now
        | d => d
      category := draft.category
      amount := draft.amount
      comment := draft.comment }
  (e, { s with expenses := s.expenses ++ [e] })

/-- Deletion: `expenses.filter(expense => expense.id !== id)`. -/
def deleteExpense (s : StoredData) (id : String) : StoredData :=
  { s with expenses := s.expenses.filter (fun e => !(e.id == id)) }

/-- Patch passed to `updateExpense`; `none` marks a field absent from the
patch object. -/
structure ExpensePatch where
  id : Option String
  date : Option DateField
  category : Option (Option String)
  amount : Option AmountField
  comment : Option (Option String)
deriving DecidableEq

/-- Object spread `{ ...e, ...p }`: fields present in the patch win. -/
def mergeExpense (e : Expense) (p : ExpensePatch) : Expense :=
  { id := p.id.getD e.id
    date := p.date.getD e.date
    category := p.category.getD e.category
    amount := p.amount.getD e.amount
    comment := p.comment.getD e.comment }

/-- Update of the first list entry matching the id (the `findIndex` /
assignment pair of `updateExpense`), returning the merged record. -/
def updateExpensesList (l : List Expense) (id : String) (p : ExpensePatch) :
    Option Expense × List Expense :=
  match l with
  | [] => (none, [])
  | e :: rest =>
    if e.id == id then (some (mergeExpense e p), mergeExpense e p :: rest)
    else
      let r := updateExpensesList rest id p
      (r.1, e :: r.2)

/-- `updateExpense(id, patch)`: merges the patch into the first record
matching the id (`findIndex`) and persists; returns `none` with the store
unchanged otherwise. -/
def updateExpense (s : StoredData) (id : String) (p : ExpensePatch) :
    Option Expense × StoredData :=
  let r := updateExpensesList s.expenses id p
  (r.1, { s with expenses := r.2 })

/-- Association-list read of a JavaScript object property. -/
def getAssoc (l : List (String × ℚ)) (k : String) : Option ℚ :=
  match l with
  | [] => none
  | (k0, v) :: rest => if k0 == k then some v else getAssoc rest k

/-- Association-list write `obj[k] = v`: overwrite in place or append. -/
def setAssoc (l : List (String × ℚ)) (k : String) (v : ℚ) : List (String × ℚ) :=
  match l with
  | [] => [(k, v)]
  | (k0, v0) :: rest => if k0 == k then (k0, v) :: rest else (k0, v0) :: setAssoc rest k v

/-- `setIncome(amount, monthKey)`: stores the parsed amount under the month
key (default: current month) and returns the stored value. -/
def setIncome (s : StoredData) (amount : ℚ) (monthKey : Option String) (now : JSDate) :
    ℚ × StoredData :=
  let key := getMonthKeyD monthKey now
  (amount, { s with income := setAssoc s.income key amount })

/-- `getIncome(monthKey)`: the stored value for the key, with `|| 0`
collapsing a falsy stored value to 0; 0 when the key is absent. -/
def getIncome (s : StoredData) (monthKey : Option String) (now : JSDate) : ℚ :=
  let key := getMonthKeyD monthKey now
  match getAssoc s.income key with
  | some v => if v = 0 then 0 else v
  | none => 0

/-- Summation step shared by the monthly totals: skip an expense with a
falsy category or date, otherwise add its parsed amount (NaN counts 0)
when the derived month key and the category both match. -/
def getTotalExpensesForCategoryInMonth (s : StoredData) (category : String)
    (monthKey : Option String) (now : JSDate) : ℚ :=
  let key := getMonthKeyD monthKey now
  s.expenses.foldl
    (fun sum exp =>
      if optFalsy exp.category || dateFieldFalsy exp.date then sum
      else if dateFieldMonthKey exp.date = key ∧ exp.category = some category then
        sum + amountOrZero exp.amount
      else sum) 0

/-- Monthly total over all categories: as above without the category
guard and match. -/
def getTotalExpensesForMonth (s : StoredData) (monthKey : Option String)
    (now : JSDate) : ℚ :=
  let key := getMonthKeyD monthKey now
  s.expenses.foldl
    (fun sum exp =>
      if dateFieldFalsy exp.date then sum
      else if dateFieldMonthKey exp.date = key then sum + amountOrZero exp.amount
      else sum) 0

/-- JavaScript `String.prototype.toLowerCase` on the app's ASCII names. -/
def jsToLower (s : String) : String := ⟨s.data.map Char.toLower⟩

/-- Whitespace stripped by `String.prototype.trim`. -/
def isJsWhitespace (c : Char) : Bool := c == ' ' || c == '\t' || c == '\n' || c == '\r'

/-- JavaScript `String.prototype.trim`. -/
def jsTrim (s : String) : String :=
  ⟨((s.data.dropWhile isJsWhitespace).reverse.dropWhile isJsWhitespace).reverse⟩

/-- `addCategory(name)`: trims, rejects a case-insensitive duplicate with
`null`, otherwise appends the trimmed name and returns it. -/
def addCategory (s : StoredData) (categoryName : String) : Option String × StoredData :=
  let categoryLower := jsToLower (jsTrim categoryName)
  if s.categories.any (fun cat => jsToLower cat == categoryLower) then (none, s)
  else
    (some (jsTrim categoryName),
      { s with categories := s.categories ++ [jsTrim categoryName] })

/-! Concrete sample data used by the witness theorems. -/

/-- March 15, 2024 (month index 2). -/
def exDate : JSDate := ⟨2024, ⟨2, by decide⟩, 15, 0⟩

/-- Sample stored expense dated 2024-03-05. -/
def exExpense1 : Expense :=
  ⟨"10", .valid ⟨2024, ⟨2, by decide⟩, 5, 0⟩, some "Food", .num 50, some "lunch"⟩

/-- Sample stored expense dated 2024-03-20. -/
def exExpense2 : Expense :=
  ⟨"11", .valid ⟨2024, ⟨2, by decide⟩, 20, 0⟩, some "Food", .num 30, some "dinner"⟩

/-- Sample store. -/
def exStore : StoredData := ⟨[exExpense1, exExpense2], ["Food"], [("2024-03", 1000)], []⟩

/-- Expense purged at startup in the C1 witness: dated January 2022. -/
def exOld : Expense := ⟨"1", .valid ⟨2022, ⟨0, by decide⟩, 10, 0⟩, some "Food", .num 5, none⟩

/-- Expense exactly at the 12-month boundary in the C1 witness. -/
def exBoundary : Expense :=
  ⟨"2", .valid ⟨2023, ⟨2, by decide⟩, 15, 0⟩, some "Food", .num 7, none⟩

/-- Store for the C1 witness. -/
def exStoreC1 : StoredData := ⟨[exOld, exBoundary], [], [], []⟩

/-- Specification-side filter for C2: the expense's derived month key
equals the month key and its category equals the argument. -/
def matchesCatMonth (category mk : String) (e : Expense) : Bool :=
  expenseMonthKey e == some mk && e.category == some category

/-- Specification-side filter for the all-categories total. -/
def matchesMonth (mk : String) (e : Expense) : Bool :=
  expenseMonthKey e == some mk

/-- Patch setting only the amount, for the C3 witness. -/
def exPatch : ExpensePatch := ⟨none, none, none, some (.num 75), none⟩

/-- Decimal digit list of a natural number, most significant first, as
`Nat.toDigitsCore` produces it. -/
def natDigits (n : Nat) : List Char :=
  if h : n / 10 = 0 then [Nat.digitChar (n % 10)]
  else natDigits (n / 10) ++ [Nat.digitChar (n % 10)]
termination_by n
decreasing_by omega

/-- Numeric value of a decimal digit list. -/
def digitsVal (l : List Char) : Nat :=
  l.foldl (fun a c => 10 * a + (c.toNat - 48)) 0

/-- Sequence of `addExpense` calls, each with its clock reading and time. -/
def addExpenses (s : StoredData) (calls : List (ExpenseDraft × Nat × JSDate)) : StoredData :=
  calls.foldl (fun acc c => (addExpense acc c.1 c.2.1 c.2.2).2) s

/-- Draft used by the C7 theorems. -/
def exDraft : ExpenseDraft := ⟨.missing, some "Food", .num 5, some "tea"⟩

/-- Navigation-relevant global state: the id of the active screen (none when
no screen is active) and the stored context the two context-sensitive
back closures read (`lastSummaryParams`, `deletionSourceScreen`,
`deletionContext`, `currentEditingYear`/`MonthIndex`). -/
structure NavState where
  currentId : Option String
  lastSummaryParams : Option (Int × Nat)
  deletionSourceScreen : Option String
  deletionContext : Option (Int × Nat × String)
  currentEditingYear : Option Int
  currentEditingMonthIndex : Option Nat
deriving DecidableEq

/-- Outcome of a back navigation: the screen id finally passed to
`showScreen` and its push-to-history flag. Rendering side effects of the
`show*Screen` helpers are outside the model; each helper stands for the
screen id it activates. -/
structure NavAction where
  target : String
  push : Bool
deriving DecidableEq

/-- Constant entries of the `logicalParent` dispatch table of
`navigateBack`; each closure stands for the screen id it finally shows. -/
def staticParent (c : String) : Option NavAction :=
  if c = "income-view-screen" then some ⟨"main-menu-screen", false⟩
  else if c = "income-edit-screen" then some ⟨"income-view-screen", false⟩
  else if c = "income-confirmation-screen" then some ⟨"main-menu-screen", false⟩
  else if c = "categories-main-screen" then some ⟨"main-menu-screen", false⟩
  else if c = "add-category-screen" then some ⟨"categories-main-screen", false⟩
  else if c = "category-confirmation-screen" then some ⟨"categories-main-screen", false⟩
  else if c = "edit-category-select-screen" then some ⟨"categories-main-screen", false⟩
  else if c = "edit-category-form-screen" then some ⟨"edit-category-select-screen", false⟩
  else if c = "delete-category-select-screen" then some ⟨"categories-main-screen", false⟩
  else if c = "delete-category-confirmation-screen" then
    some ⟨"delete-category-select-screen", false⟩
  else if c = "limits-screen" then some ⟨"main-menu-screen", false⟩
  else if c = "add-expense-screen" then some ⟨"main-menu-screen", false⟩
  else if c = "expense-added-screen" then some ⟨"add-expense-screen", false⟩
  else if c = "view-edit-expenses-screen" then some ⟨"main-menu-screen", false⟩
  else if c = "view-expenses-month-select-screen" then
    some ⟨"view-edit-expenses-screen", false⟩
  else if c = "view-expenses-month-summary-screen" then
    some ⟨"view-expenses-month-select-screen", false⟩
  else if c = "edit-expenses-month-select-screen" then
    some ⟨"view-edit-expenses-screen", false⟩
  else if c = "edit-expenses-list-screen" then
    some ⟨"edit-expenses-month-select-screen", false⟩
  else if c = "expense-modified-screen" then
    some ⟨"edit-expenses-month-select-screen", false⟩
  else if c = "download-expenses-screen" then some ⟨"view-edit-expenses-screen", false⟩
  else if c = "download-confirmation-screen" then some ⟨"view-edit-expenses-screen", false⟩
  else if c = "view-savings-screen" then some ⟨"main-menu-screen", false⟩
  else if c = "monthly-savings-detail-screen" then some ⟨"view-savings-screen", false⟩
  else if c = "exit-confirmation-screen" then some ⟨"main-menu-screen", false⟩
  else none

/-- The full `logicalParent` dispatch table: the two context-sensitive
entries branch on the stored state, the rest are the constant entries
above. Entries of the source object are keyed by distinct screen ids, so
the lookup order among them is immaterial. -/
def logicalParent (st : NavState) (c : String) : Option NavAction :=
  if c = "category-expenses-detail-screen" then
    some (match st.lastSummaryParams with
      | some _ => ⟨"view-expenses-month-summary-screen", false⟩
      | none => ⟨"view-expenses-month-select-screen", false⟩)
  else if c = "delete-expense-confirmation-screen" then
    some (if st.deletionSourceScreen = some "category-expenses-detail-screen" ∧
        st.deletionContext.isSome then
      ⟨"category-expenses-detail-screen", false⟩
    else if st.deletionSourceScreen = some "edit-expenses-list-screen" then
      ⟨"edit-expenses-list-screen", false⟩
    else ⟨"main-menu-screen", false⟩)
  else staticParent c

/-- Logical back navigation: exit confirmation on the root menu or splash
screen (or no active screen), else the logical-parent entry, else the
root menu. `showExitConfirmation` uses the default push flag, the parent
transitions pass `false`. -/
def navigateBack (st : NavState) : NavAction :=
  match st.currentId with
  | none => ⟨"exit-confirmation-screen", true⟩
  | some c =>
    if c = "main-menu-screen" ∨ c = "welcome-screen" then ⟨"exit-confirmation-screen", true⟩
    else
      match logicalParent st c with
      | some a => a
      | none => ⟨"main-menu-screen", false⟩

/-! Document stored under the `localStorage` key: the JSON value as
`JSON.stringify` serializes it. Number and string payloads are kept as
their serialized character tokens, so byte-level statements about the
persisted text need no floating-point number formatting model. -/
mutual
inductive JDoc where
  | jobj : JObjChain → JDoc
  | jarr : JArrChain → JDoc
  | jstr : List Char → JDoc
  | jnum : List Char → JDoc
  | jbool : Bool → JDoc
  | jnull : JDoc
inductive JArrChain where
  | nil : JArrChain
  | cons : JDoc → JArrChain → JArrChain
inductive JObjChain where
  | nil : JObjChain
  | cons : List Char → JDoc → JObjChain → JObjChain
end

/-! Serialization as the compact `JSON.jstringify`: no whitespace, elements
and fields joined by commas, keys and strings quoted. -/
mutual
def emit : JDoc → List Char
  | .jnull => ['n', 'u', 'l', 'l']
  | .jbool true => ['t', 'r', 'u', 'e']
  | .jbool false => ['f', 'a', 'l', 's', 'e']
  | .jnum t => t
  | .jstr t => '"' :: t ++ ['"']
  | .jarr es => '[' :: emitItems es ++ [']']
  | .jobj fs => '{' :: emitEntries fs ++ ['}']
def emitItems : JArrChain → List Char
  | .nil => []
  | .cons e .nil => emit e
  | .cons e (.cons e2 tl) => emit e ++ ',' :: emitItems (.cons e2 tl)
def emitEntries : JObjChain → List Char
  | .nil => []
  | .cons k v .nil => '"' :: k ++ '"' :: ':' :: emit v
  | .cons k v (.cons k2 v2 tl) =>
      ('"' :: k ++ '"' :: ':' :: emit v) ++ ',' :: emitEntries (.cons k2 v2 tl)
end

/-- First character of a serialized number. -/
def numHeadChar (c : Char) : Bool := c.isDigit || c == '-'

/-- Characters a serialized number consists of. -/
def numBodyChar (c : Char) : Bool :=
  c.isDigit || c == '-' || c == '+' || c == '.' || c == 'e' || c == 'E'

/-- String-token characters `JSON.jstringify` emits unescaped. -/
def plainChar (c : Char) : Bool :=
  !(c == '"') && !(c == '\\') && decide (32 ≤ c.toNat)

/-- Well-formed number token: nonempty, a digit or minus first, number
characters throughout. -/
def canonNumTok (t : List Char) : Bool :=
  match t with
  | [] => false
  | c :: cs => numHeadChar c && (c :: cs).all numBodyChar

/-- Well-formed string token: unescaped characters only. -/
def canonStrTok (t : List Char) : Bool := t.all plainChar

/-- Well-formed object key: a string token that is not a bare digit
sequence (JavaScript objects reorder integer-like keys, so such keys never
sit at an arbitrary position of a stringify output). -/
def canonKeyTok (t : List Char) : Bool :=
  canonStrTok t && (t.isEmpty || !(t.all Char.isDigit))

/-! Well-formed serialized document: canonical `JSON.jstringify` output. -/
mutual
def canonDoc : JDoc → Bool
  | .jnull => true
  | .jbool _ => true
  | .jnum t => canonNumTok t
  | .jstr t => canonStrTok t
  | .jarr es => canonItems es
  | .jobj fs => canonEntries fs
def canonItems : JArrChain → Bool
  | .nil => true
  | .cons e tl => canonDoc e && canonItems tl
def canonEntries : JObjChain → Bool
  | .nil => true
  | .cons k v tl => canonKeyTok k && canonDoc v && canonEntries tl
end

/-! Parser fuel needed for a value. -/
mutual
def need : JDoc → Nat
  | .jarr es => 1 + needItems es
  | .jobj fs => 1 + needEntries fs
  | _ => 1
def needItems : JArrChain → Nat
  | .nil => 0
  | .cons e tl => need e + 1 + needItems tl
def needEntries : JObjChain → Nat
  | .nil => 0
  | .cons _ v tl => need v + 1 + needEntries tl
end

/-! Recursive-descent `JSON.parse` over the serialized characters, with a
step-count fuel; `scanItems` and `scanEntries` consume the elements of a
nonempty array or object through the closing bracket. -/
mutual
def scanValue : Nat → List Char → Option (JDoc × List Char)
  | 0, _ => none
  | Nat.succ fuel, s =>
    match s with
    | [] => none
    | c :: cs =>
      if c = 'n' then
        match cs with
        | 'u' :: 'l' :: 'l' :: rest => some (.jnull, rest)
        | _ => none
      else if c = 't' then
        match cs with
        | 'r' :: 'u' :: 'e' :: rest => some (.jbool true, rest)
        | _ => none
      else if c = 'f' then
        match cs with
        | 'a' :: 'l' :: 's' :: 'e' :: rest => some (.jbool false, rest)
        | _ => none
      else if c = '"' then
        match cs.dropWhile (fun ch => !(ch == '"')) with
        | '"' :: rest => some (.jstr (cs.takeWhile (fun ch => !(ch == '"'))), rest)
        | _ => none
      else if c = '[' then
        match cs with
        | [] => none
        | c2 :: cs2 =>
          if c2 = ']' then some (.jarr .nil, cs2)
          else
            match scanItems fuel (c2 :: cs2) with
            | some (es, rest) => some (.jarr es, rest)
            | none => none
      else if c = '{' then
        match cs with
        | [] => none
        | c2 :: cs2 =>
          if c2 = '}' then some (.jobj .nil, cs2)
          else
            match scanEntries fuel (c2 :: cs2) with
            | some (fs, rest) => some (.jobj fs, rest)
            | none => none
      else if numHeadChar c then
        some (.jnum ((c :: cs).takeWhile numBodyChar), (c :: cs).dropWhile numBodyChar)
      else none
def scanItems : Nat → List Char → Option (JArrChain × List Char)
  | 0, _ => none
  | Nat.succ fuel, s =>
    match scanValue fuel s with
    | some (v, ',' :: rest) =>
      match scanItems fuel rest with
      | some (es, rest2) => some (.cons v es, rest2)
      | none => none
    | some (v, ']' :: rest) => some (.cons v .nil, rest)
    | _ => none
def scanEntries : Nat → List Char → Option (JObjChain × List Char)
  | 0, _ => none
  | Nat.succ fuel, s =>
    match s with
    | '"' :: cs =>
      match cs.dropWhile (fun ch => !(ch == '"')) with
      | '"' :: ':' :: rest =>
        match scanValue fuel rest with
        | some (v, ',' :: rest2) =>
          (match scanEntries fuel rest2 with
           | some (fs, rest3) =>
               some (.cons (cs.takeWhile (fun ch => !(ch == '"'))) v fs, rest3)
           | none => none)
        | some (v, '}' :: rest2) =>
            some (.cons (cs.takeWhile (fun ch => !(ch == '"'))) v .nil, rest2)
        | _ => none
      | _ => none
    | _ => none
end

/-- `JSON.jstringify` at the string level. -/
def jsonStringify (v : JDoc) : String := ⟨emit v⟩

/-- `JSON.parse` at the string level: a full successful parse, `none` for
a parse error (the thrown exception). -/
def jsonParse (s : String) : Option JDoc :=
  match scanValue (s.data.length + 1) s.data with
  | some (v, []) => some v
  | _ => none

/-- The default record `{ expenses: [], categories: [], income: {}, limits: {} }`
as a document. -/
def defaultDataJson : JDoc :=
  .jobj (.cons "expenses".data (.jarr .nil)
    (.cons "categories".data (.jarr .nil)
      (.cons "income".data (.jobj .nil)
        (.cons "limits".data (.jobj .nil) .nil))))

/-- `getStoredData` at the persistence level: an absent or empty stored
string (falsy) and a parse failure both yield the default record. -/
def getStoredData (store : Option String) : JDoc :=
  match store with
  | none => defaultDataJson
  | some s => if s = "" then defaultDataJson else (jsonParse s).getD defaultDataJson

/-- `saveData` at the persistence level: serialize and store. -/
def saveData (v : JDoc) : Option String := some (jsonStringify v)

/-- True when the head of the remaining input cannot extend a token
matched by `p` (or the input is exhausted). -/
def stopsTok (p : Char → Bool) (r : List Char) : Bool :=
  match r with
  | [] => true
  | c :: _ => !(p c)

lemma not_beq_eq_true_iff (a b : String) : ((!(a == b)) = true) ↔ a ≠ b := by
  simp

/-- C10: `deleteExpense(id)` keeps exactly the expenses whose id differs from
the argument, leaves categories, income and limits unchanged, is the
identity when nothing matches, and a second call with the same id is a
no-op. -/
theorem c10_deleteExpense_frame (s : StoredData) (id : String) :
    (∀ e, e ∈ (deleteExpense s id).expenses ↔ e ∈ s.expenses ∧ e.id ≠ id) ∧
    (deleteExpense s id).categories = s.categories ∧
    (deleteExpense s id).income = s.income ∧
    (deleteExpense s id).limits = s.limits ∧
    ((∀ e ∈ s.expenses, e.id ≠ id) → deleteExpense s id = s) ∧
    deleteExpense (deleteExpense s id) id = deleteExpense s id := by
  refine ⟨fun e => ?_, rfl, rfl, rfl, fun h => ?_, ?_⟩
  · simp [deleteExpense, List.mem_filter]
  · have hf : s.expenses.filter (fun e => !(e.id == id)) = s.expenses :=
      List.filter_eq_self.mpr (fun e he => (not_beq_eq_true_iff e.id id).mpr (h e he))
    show { s with expenses := s.expenses.filter (fun e => !(e.id == id)) } = s
    rw [hf]
  · have hf : ((s.expenses.filter (fun e => !(e.id == id))).filter
        (fun e => !(e.id == id))) = s.expenses.filter (fun e => !(e.id == id)) :=
      List.filter_eq_self.mpr (fun e he => (List.mem_filter.mp he).2)
    simp only [deleteExpense]
    rw [hf]

/-- Witness for C10 at concrete input: deleting an id present on no stored
expense leaves the sample store unchanged. -/
theorem c10_witness : deleteExpense exStore "42" = exStore :=
  (c10_deleteExpense_frame exStore "42").2.2.2.2.1 (by decide)

/-- C9: startup cleanup also removes every expense whose date field is
missing or does not parse as a valid date. -/
theorem c9_cleanup_drops_undated (s : StoredData) (now : JSDate) (e : Expense)
    (hd : e.date = .missing ∨ e.date = .invalid) :
    e ∉ (cleanupOldData s now).expenses := by
  intro hmem
  have hkeep : dateFieldGE e.date (minus12Months now) = true :=
    (List.mem_filter.mp hmem).2
  rcases hd with h | h <;> rw [h] at hkeep <;> simp [dateFieldGE] at hkeep

/-- Witness for C9 at concrete input: an expense with a missing date is
absent after cleanup. -/
theorem c9_witness :
    (⟨"7", .missing, none, .nan, none⟩ : Expense) ∉ (cleanupOldData exStore exDate).expenses :=
  c9_cleanup_drops_undated exStore exDate _ (Or.inl rfl)

lemma getAssoc_setAssoc_self (l : List (String × ℚ)) (k : String) (a : ℚ) :
    getAssoc (setAssoc l k a) k = some a := by
  induction l with
  | nil => simp [setAssoc, getAssoc]
  | cons hd tl ih =>
    obtain ⟨k0, v0⟩ := hd
    by_cases h : k0 == k
    · simp [setAssoc, getAssoc, h]
    · simp only [setAssoc, getAssoc, h, if_neg]
      simpa [h] using ih

lemma getAssoc_setAssoc_ne (l : List (String × ℚ)) (k k2 : String) (a : ℚ)
    (h : k ≠ k2) : getAssoc (setAssoc l k a) k2 = getAssoc l k2 := by
  induction l with
  | nil => simp [setAssoc, getAssoc, h]
  | cons hd tl ih =>
    obtain ⟨k0, v0⟩ := hd
    by_cases h0 : k0 == k
    · have hk0 : k0 = k := by simpa using h0
      simp [setAssoc, getAssoc, h0, hk0, h]
    · simp only [setAssoc, getAssoc, h0, if_neg]
      by_cases h2 : k0 == k2 <;> simp [getAssoc, h2, ih]

/-- C5: income entries are isolated per month: after `setIncome(a, k)`,
`getIncome(k)` returns `a`, `getIncome(k2)` for a different key is
unchanged, and a key that was never set reads 0. -/
theorem c5_income_per_month (s : StoredData) (a : ℚ) (k k2 : String) (now : JSDate)
    (hk : k ≠ "") (hk2 : k2 ≠ "") (hne : k ≠ k2) :
    getIncome (setIncome s a (some k) now).2 (some k) now = a ∧
    getIncome (setIncome s a (some k) now).2 (some k2) now = getIncome s (some k2) now ∧
    (getAssoc s.income k2 = none → getIncome s (some k2) now = 0) := by
  refine ⟨?_, ?_, fun h => ?_⟩
  · simp only [getIncome, setIncome, getMonthKeyD, if_neg hk,
      getAssoc_setAssoc_self]
    by_cases ha : a = 0 <;> simp [ha]
  · simp only [getIncome, setIncome, getMonthKeyD, if_neg hk, if_neg hk2,
      getAssoc_setAssoc_ne s.income k k2 a hne]
  · simp [getIncome, getMonthKeyD, if_neg hk2, h]

/-- Witness for C5 at concrete input: `setIncome(1000, "2024-03")` then
`getIncome("2024-03")` gives 1000 while `getIncome("2024-04")` gives 0. -/
theorem c5_witness :
    getIncome (setIncome emptyData 1000 (some "2024-03") exDate).2 (some "2024-03") exDate
        = 1000 ∧
    getIncome (setIncome emptyData 1000 (some "2024-03") exDate).2 (some "2024-04") exDate
        = 0 := by
  have h := c5_income_per_month emptyData 1000 "2024-03" "2024-04" exDate
    (by decide) (by decide) (by decide)
  exact ⟨h.1, by rw [h.2.1]; exact h.2.2 rfl⟩

/-- C4: `addCategory(name)` returns null with the store unchanged exactly
when a stored category equals the trimmed name case-insensitively;
otherwise it appends the trimmed name and returns it. -/
theorem c4_addCategory_dedup (s : StoredData) (name : String) :
    (((addCategory s name).1 = none ∧ (addCategory s name).2 = s) ↔
      ∃ cat ∈ s.categories, jsToLower cat = jsToLower (jsTrim name)) ∧
    ((∀ cat ∈ s.categories, jsToLower cat ≠ jsToLower (jsTrim name)) →
      addCategory s name =
        (some (jsTrim name), { s with categories := s.categories ++ [jsTrim name] })) := by
  by_cases hdup : s.categories.any (fun cat => jsToLower cat == jsToLower (jsTrim name))
  · have hex : ∃ cat ∈ s.categories, jsToLower cat = jsToLower (jsTrim name) := by
      simpa [List.any_eq_true] using hdup
    refine ⟨?_, fun hall => ?_⟩
    · simp [addCategory, hdup, hex]
    · obtain ⟨cat, hc, he⟩ := hex
      exact absurd he (hall cat hc)
  · have hnoex : ¬ ∃ cat ∈ s.categories, jsToLower cat = jsToLower (jsTrim name) := by
      simpa [List.any_eq_true] using hdup
    refine ⟨?_, fun _ => ?_⟩
    · simp only [addCategory, if_neg hdup]
      exact ⟨fun h => absurd h.1 (by simp), fun h => absurd h hnoex⟩
    · simp [addCategory, hdup]

/-- Witness for C4 at concrete input: `addCategory("Food")` then
`addCategory("food")` makes the second call return null. -/
theorem c4_witness : (addCategory (addCategory emptyData "Food").2 "food").1 = none := by
  have h := (c4_addCategory_dedup (addCategory emptyData "Food").2 "food").1
  exact (h.mpr ⟨"Food", by decide, by decide⟩).1

lemma jsDateLE_eq_false_of_monthIdx_lt (a b : JSDate) (h : monthIdx a < monthIdx b) :
    jsDateLE b a = false := by
  have ha := a.month.isLt
  have hb := b.month.isLt
  simp only [monthIdx] at h
  unfold jsDateLE
  split_ifs with h1 h2 h3
  · exact decide_eq_false (by omega)
  · exact decide_eq_false (by omega)
  · exact absurd h (by omega)
  · exact absurd h (by omega)

lemma monthIdx_minus12 (d : JSDate) : monthIdx d - 12 ≤ monthIdx (minus12Months d) := by
  have hd := d.month.isLt
  simp only [minus12Months, monthIdx]
  split_ifs with h1 h2 <;> simp <;> omega

/-- C1: after `cleanupOldData`, every expense dated strictly more than 12
calendar months before now is gone, and every expense dated at or after
the cutoff instant (now minus 12 calendar months) is retained. -/
theorem c1_cleanup_purges_and_retains (s : StoredData) (now : JSDate) :
    (∀ e ∈ s.expenses, ∀ d, e.date = .valid d →
      monthIdx d < monthIdx now - 12 → e ∉ (cleanupOldData s now).expenses) ∧
    (∀ e ∈ s.expenses, ∀ d, e.date = .valid d →
      jsDateLE (minus12Months now) d = true → e ∈ (cleanupOldData s now).expenses) := by
  constructor
  · intro e _ d hd hold hmem
    have hkeep : dateFieldGE e.date (minus12Months now) = true :=
      (List.mem_filter.mp hmem).2
    have hle : jsDateLE (minus12Months now) d = true := by
      simpa [dateFieldGE, hd] using hkeep
    have hf : jsDateLE (minus12Months now) d = false :=
      jsDateLE_eq_false_of_monthIdx_lt d (minus12Months now)
        (lt_of_lt_of_le hold (monthIdx_minus12 now))
    rw [hle] at hf
    simp at hf
  · intro e he d hd hge
    refine List.mem_filter.mpr ⟨he, ?_⟩
    simpa [dateFieldGE, hd] using hge

/-- Witness for C1 at concrete input: with now = 2024-03-15, an expense of
January 2022 is purged and one dated exactly 2023-03-15 is retained. -/
theorem c1_witness :
    exOld ∉ (cleanupOldData exStoreC1 exDate).expenses ∧
    exBoundary ∈ (cleanupOldData exStoreC1 exDate).expenses := by
  have h := c1_cleanup_purges_and_retains exStoreC1 exDate
  exact ⟨h.1 exOld (by decide) _ rfl (by decide),
    h.2 exBoundary (by decide) _ rfl (by decide)⟩

lemma foldl_if_sum (p : Expense → Bool) (f : Expense → ℚ) (l : List Expense) :
    ∀ acc : ℚ,
      l.foldl (fun sum e => if p e then sum + f e else sum) acc
        = acc + ((l.filter p).map f).sum := by
  induction l with
  | nil => intro acc; simp
  | cons e tl ih =>
    intro acc
    by_cases hp : p e <;> simp [hp, ih, add_assoc]

lemma catMonthStep_eq (category mk : String) (hcat : category ≠ "") (e : Expense)
    (sum : ℚ) :
    (if optFalsy e.category || dateFieldFalsy e.date then sum
     else if dateFieldMonthKey e.date = mk ∧ e.category = some category then
       sum + amountOrZero e.amount
     else sum)
    = if matchesCatMonth category mk e then sum + amountOrZero e.amount else sum := by
  obtain ⟨eid, edate, ecat, eamt, ecom⟩ := e
  cases edate <;> rcases ecat with _ | c <;>
    simp only [optFalsy, dateFieldFalsy, dateFieldMonthKey, expenseMonthKey,
      matchesCatMonth, Bool.or_true, Bool.or_false, Bool.true_or, Bool.false_or,
      if_true, if_false, Bool.and_eq_true, beq_iff_eq, Option.some.injEq,
      reduceCtorEq] <;>
    try simp_all
  all_goals
    by_cases hc : c = "" <;>
      simp_all [eq_comm, and_comm] <;>
      split_ifs <;> simp_all

lemma monthStep_eq (mk : String) (e : Expense) (sum : ℚ) :
    (if dateFieldFalsy e.date then sum
     else if dateFieldMonthKey e.date = mk then sum + amountOrZero e.amount
     else sum)
    = if matchesMonth mk e then sum + amountOrZero e.amount else sum := by
  obtain ⟨eid, edate, ecat, eamt, ecom⟩ := e
  cases edate <;>
    simp only [dateFieldFalsy, dateFieldMonthKey, expenseMonthKey, matchesMonth,
      if_true, if_false, beq_iff_eq, Option.some.injEq, reduceCtorEq] <;>
    split_ifs <;> simp_all

/-- C2: the monthly category total is the sum of the parsed amounts of
exactly the expenses whose derived month key and category match (an
unparseable amount contributes zero), and the all-categories monthly
total is the same sum without the category filter. -/
theorem c2_month_totals (s : StoredData) (category mk : String) (now : JSDate)
    (hcat : category ≠ "") (hmk : mk ≠ "") :
    getTotalExpensesForCategoryInMonth s category (some mk) now =
      ((s.expenses.filter (matchesCatMonth category mk)).map
        (fun e => amountOrZero e.amount)).sum ∧
    getTotalExpensesForMonth s (some mk) now =
      ((s.expenses.filter (matchesMonth mk)).map
        (fun e => amountOrZero e.amount)).sum := by
  constructor
  · show s.expenses.foldl _ 0 = _
    have hext : s.expenses.foldl
        (fun sum exp =>
          if optFalsy exp.category || dateFieldFalsy exp.date then sum
          else if dateFieldMonthKey exp.date = getMonthKeyD (some mk) now ∧
              exp.category = some category then
            sum + amountOrZero exp.amount
          else sum) 0
        = s.expenses.foldl
          (fun sum exp =>
            if matchesCatMonth category mk exp then sum + amountOrZero exp.amount
            else sum) 0 := by
      refine List.foldl_ext _ _ 0 (fun acc exp _ => ?_)
      rw [show getMonthKeyD (some mk) now = mk by simp [getMonthKeyD, hmk]]
      exact catMonthStep_eq category mk hcat exp acc
    rw [hext, foldl_if_sum, zero_add]
  · show s.expenses.foldl _ 0 = _
    have hext : s.expenses.foldl
        (fun sum exp =>
          if dateFieldFalsy exp.date then sum
          else if dateFieldMonthKey exp.date = getMonthKeyD (some mk) now then
            sum + amountOrZero exp.amount
          else sum) 0
        = s.expenses.foldl
          (fun sum exp =>
            if matchesMonth mk exp then sum + amountOrZero exp.amount else sum) 0 := by
      refine List.foldl_ext _ _ 0 (fun acc exp _ => ?_)
      rw [show getMonthKeyD (some mk) now = mk by simp [getMonthKeyD, hmk]]
      exact monthStep_eq mk exp acc
    rw [hext, foldl_if_sum, zero_add]

/-- Witness for C2 at concrete input: two Food expenses of 50 and 30 in
March 2024 total 80. -/
theorem c2_witness :
    getTotalExpensesForCategoryInMonth exStore "Food" (some "2024-03") exDate = 80 := by
  have h := c2_month_totals exStore "Food" "2024-03" exDate (by decide) (by decide)
  rw [h.1]
  have hf : List.filter (matchesCatMonth "Food" "2024-03") exStore.expenses
      = [exExpense1, exExpense2] := by decide
  rw [hf]
  simp [exExpense1, exExpense2, amountOrZero]
  norm_num

lemma updateExpensesList_no_match (l : List Expense) (id : String) (p : ExpensePatch)
    (h : ∀ e ∈ l, e.id ≠ id) : updateExpensesList l id p = (none, l) := by
  induction l with
  | nil => rfl
  | cons e tl ih =>
    have he : ¬((e.id == id) = true) := by simpa using h e (by simp)
    simp [updateExpensesList, he, ih (fun x hx => h x (by simp [hx]))]

lemma updateExpensesList_match (l₁ : List Expense) (e : Expense) (l₂ : List Expense)
    (id : String) (p : ExpensePatch)
    (h₁ : ∀ x ∈ l₁, x.id ≠ id) (he : e.id = id) :
    updateExpensesList (l₁ ++ e :: l₂) id p =
      (some (mergeExpense e p), l₁ ++ mergeExpense e p :: l₂) := by
  induction l₁ with
  | nil => simp [updateExpensesList, he]
  | cons x tl ih =>
    have hx : ¬((x.id == id) = true) := by simpa using h₁ x (by simp)
    simp [updateExpensesList, hx, ih (fun y hy => h₁ y (by simp [hy]))]

/-- C3: `updateExpense(id, patch)` on the first matching expense returns
the merge (patch fields win, others are preserved) and replaces exactly
that list entry, leaving all other expenses unchanged; with no matching
id it returns null and the store is unchanged. -/
theorem c3_updateExpense_merge (s : StoredData) (id : String) (p : ExpensePatch) :
    ((∀ e ∈ s.expenses, e.id ≠ id) → updateExpense s id p = (none, s)) ∧
    (∀ l₁ e l₂, s.expenses = l₁ ++ e :: l₂ → (∀ x ∈ l₁, x.id ≠ id) → e.id = id →
      (updateExpense s id p).1 = some (mergeExpense e p) ∧
      (updateExpense s id p).2 = { s with expenses := l₁ ++ mergeExpense e p :: l₂ }) ∧
    (∀ e : Expense,
      (p.id = none → (mergeExpense e p).id = e.id) ∧
      (∀ v, p.id = some v → (mergeExpense e p).id = v) ∧
      (p.date = none → (mergeExpense e p).date = e.date) ∧
      (∀ v, p.date = some v → (mergeExpense e p).date = v) ∧
      (p.category = none → (mergeExpense e p).category = e.category) ∧
      (∀ v, p.category = some v → (mergeExpense e p).category = v) ∧
      (p.amount = none → (mergeExpense e p).amount = e.amount) ∧
      (∀ v, p.amount = some v → (mergeExpense e p).amount = v) ∧
      (p.comment = none → (mergeExpense e p).comment = e.comment) ∧
      (∀ v, p.comment = some v → (mergeExpense e p).comment = v)) := by
  refine ⟨fun h => ?_, fun l₁ e l₂ hs h₁ he => ?_, fun e => ?_⟩
  · unfold updateExpense
    rw [updateExpensesList_no_match s.expenses id p h]
  · unfold updateExpense
    rw [hs, updateExpensesList_match l₁ e l₂ id p h₁ he]
    exact ⟨rfl, rfl⟩
  · exact ⟨fun h => by simp [mergeExpense, h], fun v h => by simp [mergeExpense, h],
      fun h => by simp [mergeExpense, h], fun v h => by simp [mergeExpense, h],
      fun h => by simp [mergeExpense, h], fun v h => by simp [mergeExpense, h],
      fun h => by simp [mergeExpense, h], fun v h => by simp [mergeExpense, h],
      fun h => by simp [mergeExpense, h], fun v h => by simp [mergeExpense, h]⟩

/-- Witness for C3 at concrete input: patching the amount of the first
sample expense changes only the amount, keeps its comment, and leaves the
second expense in place; the merged record is returned. -/
theorem c3_witness :
    (updateExpense exStore "10" exPatch).1 = some (mergeExpense exExpense1 exPatch) ∧
    (updateExpense exStore "10" exPatch).2 =
      { exStore with expenses := [] ++ mergeExpense exExpense1 exPatch :: [exExpense2] } ∧
    (mergeExpense exExpense1 exPatch).amount = .num 75 ∧
    (mergeExpense exExpense1 exPatch).comment = exExpense1.comment := by
  have h := c3_updateExpense_merge exStore "10" exPatch
  have h2 := h.2.1 [] exExpense1 [exExpense2] rfl (by simp) rfl
  exact ⟨h2.1, h2.2,
    (h.2.2 exExpense1).2.2.2.2.2.2.2.1 (.num 75) rfl,
    (h.2.2 exExpense1).2.2.2.2.2.2.2.2.1 rfl⟩

lemma toDigitsCore_eq (f : Nat) : ∀ (n : Nat) (ds : List Char), n < f →
    Nat.toDigitsCore 10 f n ds = natDigits n ++ ds := by
  induction f with
  | zero => intro n ds h; omega
  | succ f ih =>
    intro n ds h
    by_cases h0 : n / 10 = 0
    · have hnd : natDigits n = [Nat.digitChar (n % 10)] := by
        rw [natDigits]
        simp [h0]
      simp [Nat.toDigitsCore, h0, hnd]
    · have hlt : n / 10 < f := by omega
      have hnd : natDigits n = natDigits (n / 10) ++ [Nat.digitChar (n % 10)] := by
        rw [natDigits]
        simp [h0]
      simp only [Nat.toDigitsCore, if_neg h0]
      rw [ih (n / 10) (Nat.digitChar (n % 10) :: ds) hlt, hnd]
      simp

lemma digitChar_toNat (d : Nat) (h : d < 10) : (Nat.digitChar d).toNat = 48 + d := by
  interval_cases d <;> decide

theorem digitsVal_natDigits (n : Nat) : digitsVal (natDigits n) = n := by
  by_cases h0 : n / 10 = 0
  · rw [natDigits]
    simp only [dif_pos h0]
    simp [digitsVal, digitChar_toNat (n % 10) (by omega)]
    omega
  · have ihn := digitsVal_natDigits (n / 10)
    rw [natDigits]
    simp only [dif_neg h0]
    rw [show digitsVal (natDigits (n / 10) ++ [Nat.digitChar (n % 10)])
        = 10 * digitsVal (natDigits (n / 10)) + ((Nat.digitChar (n % 10)).toNat - 48) from by
      simp [digitsVal, List.foldl_append]]
    rw [ihn, digitChar_toNat (n % 10) (by omega)]
    omega
termination_by n
decreasing_by omega

theorem natRepr_injective (m n : Nat) (h : Nat.repr m = Nat.repr n) : m = n := by
  have hl : Nat.toDigits 10 m = Nat.toDigits 10 n := by
    have hd := congrArg String.data h
    simpa [Nat.repr, List.asString] using hd
  unfold Nat.toDigits at hl
  rw [toDigitsCore_eq (m + 1) m [] (by omega),
    toDigitsCore_eq (n + 1) n [] (by omega)] at hl
  simp only [List.append_nil] at hl
  rw [← digitsVal_natDigits m, ← digitsVal_natDigits n, hl]

/-- Counterexample to C7 as stated: two `addExpense` calls that observe the
same `Date.now()` reading (same millisecond) store two expenses with equal
ids, so the stored ids are not pairwise distinct. -/
theorem c7_counterexample :
    ¬ List.Pairwise (fun a b => a.id ≠ b.id)
      (addExpense (addExpense emptyData exDraft 1000 exDate).2 exDraft 1000 exDate).2.expenses := by
  decide

/-- C7 amended: a sequence of `addExpense` calls whose `Date.now()` readings
are pairwise distinct (and distinct from the clock tokens of any ids
already stored) yields pairwise-distinct stored ids. -/
theorem c7_unique_ids_of_distinct_clocks :
    ∀ (calls : List (ExpenseDraft × Nat × JSDate)) (s : StoredData),
      (∀ e ∈ s.expenses, ∀ c ∈ calls, e.id ≠ Nat.repr c.2.1) →
      s.expenses.Pairwise (fun a b => a.id ≠ b.id) →
      (calls.map (fun c => c.2.1)).Pairwise (· ≠ ·) →
      (addExpenses s calls).expenses.Pairwise (fun a b => a.id ≠ b.id) := by
  intro calls
  induction calls with
  | nil => intro s h1 h2 h3; simpa [addExpenses] using h2
  | cons c cs ih =>
    intro s h1 h2 h3
    show (addExpenses (addExpense s c.1 c.2.1 c.2.2).2 cs).expenses.Pairwise _
    apply ih
    · intro e he c2 hc2
      have he2 : e ∈ s.expenses ++ [(addExpense s c.1 c.2.1 c.2.2).1] := he
      rcases List.mem_append.mp he2 with h | h
      · exact h1 e h c2 (List.mem_cons_of_mem c hc2)
      · have heq : e = (addExpense s c.1 c.2.1 c.2.2).1 := by simpa using h
        have hid : e.id = Nat.repr c.2.1 := by rw [heq]; rfl
        rw [hid]
        intro hrep
        have hcc : c.2.1 = c2.2.1 := natRepr_injective _ _ hrep
        have hne := (List.pairwise_cons.mp (by simpa only [List.map_cons] using h3)).1 c2.2.1
          (List.mem_map_of_mem (fun x => x.2.1) hc2)
        exact hne hcc
    · show (s.expenses ++ [(addExpense s c.1 c.2.1 c.2.2).1]).Pairwise _
      rw [List.pairwise_append]
      refine ⟨h2, List.pairwise_singleton _ _, fun a ha b hb => ?_⟩
      have hb2 : b = (addExpense s c.1 c.2.1 c.2.2).1 := by simpa using hb
      rw [hb2]
      exact h1 a ha c (List.mem_cons_self c cs)
    · exact (List.pairwise_cons.mp (by simpa only [List.map_cons] using h3)).2

/-- Witness for the amended C7 at concrete input: two calls one millisecond
apart store distinct ids. -/
theorem c7_witness :
    (addExpenses emptyData [(exDraft, 1000, exDate), (exDraft, 1001, exDate)]).expenses.Pairwise
      (fun a b => a.id ≠ b.id) :=
  c7_unique_ids_of_distinct_clocks _ emptyData (by decide) (by decide) (by decide)

lemma logicalParent_independent (st st2 : NavState) (c : String)
    (h1 : c ≠ "category-expenses-detail-screen")
    (h2 : c ≠ "delete-expense-confirmation-screen") :
    logicalParent st c = logicalParent st2 c := by
  simp only [logicalParent, if_neg h1, if_neg h2]

/-- C8: `navigateBack` is a function of the static parent map, not of the
visit history: on the root menu or splash screen (or no active screen) it
shows the exit confirmation instead of navigating; on a screen without a
map entry it goes to the root menu; on any screen other than the two
context-sensitive ones the outcome depends only on the current screen id;
the context-sensitive detail screen branches on the stored
`lastSummaryParams`. -/
theorem c8_navigateBack_static_parent :
    (∀ st : NavState,
      (st.currentId = none ∨ st.currentId = some "main-menu-screen" ∨
          st.currentId = some "welcome-screen") →
        navigateBack st = ⟨"exit-confirmation-screen", true⟩) ∧
    (∀ (st : NavState) (c : String), st.currentId = some c →
      c ≠ "main-menu-screen" → c ≠ "welcome-screen" → logicalParent st c = none →
        navigateBack st = ⟨"main-menu-screen", false⟩) ∧
    (∀ (st st2 : NavState) (c : String), st.currentId = some c → st2.currentId = some c →
      c ≠ "category-expenses-detail-screen" → c ≠ "delete-expense-confirmation-screen" →
        navigateBack st = navigateBack st2) ∧
    (∀ st : NavState, st.currentId = some "category-expenses-detail-screen" →
      (st.lastSummaryParams.isSome →
        navigateBack st = ⟨"view-expenses-month-summary-screen", false⟩) ∧
      (st.lastSummaryParams = none →
        navigateBack st = ⟨"view-expenses-month-select-screen", false⟩)) := by
  have hdetail : ∀ st : NavState, logicalParent st "category-expenses-detail-screen"
      = some (match st.lastSummaryParams with
        | some _ => (⟨"view-expenses-month-summary-screen", false⟩ : NavAction)
        | none => ⟨"view-expenses-month-select-screen", false⟩) := fun st => rfl
  have hroot : ¬("category-expenses-detail-screen" = "main-menu-screen" ∨
      "category-expenses-detail-screen" = "welcome-screen") := by decide
  refine ⟨fun st h => ?_, fun st c hc hm hw hnone => ?_, fun st st2 c hc hc2 h1 h2 => ?_,
    fun st hc => ⟨fun hp => ?_, fun hp => ?_⟩⟩
  · rcases h with h | h | h
    · simp [navigateBack, h]
    · simp [navigateBack, h]
    · simp [navigateBack, h]
  · simp only [navigateBack, hc]
    rw [if_neg (by simp [hm, hw]), hnone]
  · by_cases hr : c = "main-menu-screen" ∨ c = "welcome-screen"
    · simp only [navigateBack, hc, hc2]
      rw [if_pos hr, if_pos hr]
    · simp only [navigateBack, hc, hc2]
      rw [if_neg hr, if_neg hr, logicalParent_independent st st2 c h1 h2]
  · obtain ⟨p, hp2⟩ := Option.isSome_iff_exists.mp hp
    simp only [navigateBack, hc]
    rw [if_neg hroot, hdetail st, hp2]
  · simp only [navigateBack, hc]
    rw [if_neg hroot, hdetail st, hp]

/-- Witness for C8 at concrete input: back from the limits screen in two
states that differ in every context field gives the same target, and back
from the root menu shows the exit confirmation. -/
theorem c8_witness :
    navigateBack ⟨some "limits-screen", none, none, none, none, none⟩ =
      navigateBack ⟨some "limits-screen", some (2024, 2), some "edit-expenses-list-screen",
        some (2024, 2, "Food"), some 2024, some 2⟩ ∧
    navigateBack ⟨some "main-menu-screen", none, none, none, none, none⟩ =
      ⟨"exit-confirmation-screen", true⟩ := by
  constructor
  · exact (c8_navigateBack_static_parent.2.2.1 _ _ "limits-screen" rfl rfl
      (by decide) (by decide))
  · exact c8_navigateBack_static_parent.1 _ (Or.inr (Or.inl rfl))

lemma splitTok_exact (p : Char → Bool) (l r : List Char)
    (hl : ∀ a ∈ l, p a = true) (hr : stopsTok p r = true) :
    (l ++ r).takeWhile p = l ∧ (l ++ r).dropWhile p = r := by
  constructor
  · rw [List.takeWhile_append_of_pos hl]
    cases r with
    | nil => simp
    | cons c cs =>
      have hc : p c = false := by simpa [stopsTok] using hr
      simp [List.takeWhile_cons, hc]
  · rw [List.dropWhile_append_of_pos hl]
    cases r with
    | nil => rfl
    | cons c cs =>
      have hc : p c = false := by simpa [stopsTok] using hr
      simp [List.dropWhile_cons, hc]

lemma plainChar_ne_quote {x : Char} (h : plainChar x = true) : (!(x == '"')) = true := by
  simp only [plainChar, Bool.and_eq_true] at h
  exact h.1.1

lemma render_first (v : JDoc) (h : canonDoc v = true) :
    ∃ c t, emit v = c :: t ∧
      (c = 'n' ∨ c = 't' ∨ c = 'f' ∨ c = '"' ∨ c = '[' ∨ c = '{' ∨ numHeadChar c = true) := by
  cases v with
  | jnull => exact ⟨'n', _, rfl, by simp⟩
  | jbool b =>
    cases b
    · exact ⟨'f', _, rfl, by simp⟩
    · exact ⟨'t', _, rfl, by simp⟩
  | jnum t =>
    cases t with
    | nil => simp [canonDoc, canonNumTok] at h
    | cons c cs =>
      have hh := h
      simp only [canonDoc, canonNumTok, Bool.and_eq_true] at hh
      exact ⟨c, cs, rfl, by simp [hh.1]⟩
  | jstr t => exact ⟨'"', _, rfl, by simp⟩
  | jarr es => exact ⟨'[', _, rfl, by simp⟩
  | jobj fs => exact ⟨'{', _, rfl, by simp⟩

lemma render_head_ne (v : JDoc) (h : canonDoc v = true) :
    ∃ c t, emit v = c :: t ∧ c ≠ ']' ∧ c ≠ '}' := by
  obtain ⟨c, t, hr, hd⟩ := render_first v h
  refine ⟨c, t, hr, ?_, ?_⟩ <;>
    (rcases hd with h1 | h1 | h1 | h1 | h1 | h1 | h1 <;>
      first
        | (subst h1; decide)
        | (intro he; subst he; simp [numHeadChar] at h1))

lemma weight_pos (v : JDoc) : 1 ≤ need v := by
  cases v <;> simp [need] <;> omega

lemma weightElems_pos (es : JArrChain) (h : es ≠ .nil) : 1 ≤ needItems es := by
  cases es with
  | nil => exact absurd rfl h
  | cons e tl => simp only [needItems]; omega

lemma weightFields_pos (fs : JObjChain) (h : fs ≠ .nil) : 1 ≤ needEntries fs := by
  cases fs with
  | nil => exact absurd rfl h
  | cons k v tl => simp only [needEntries]; omega

theorem parse_render (fuel : Nat) :
    (∀ v rest, canonDoc v = true → stopsTok numBodyChar rest = true → need v ≤ fuel →
      scanValue fuel (emit v ++ rest) = some (v, rest)) ∧
    (∀ es rest, canonItems es = true → es ≠ .nil → needItems es ≤ fuel →
      scanItems fuel (emitItems es ++ ']' :: rest) = some (es, rest)) ∧
    (∀ fs rest, canonEntries fs = true → fs ≠ .nil → needEntries fs ≤ fuel →
      scanEntries fuel (emitEntries fs ++ '}' :: rest) = some (fs, rest)) := by
  induction fuel with
  | zero =>
    refine ⟨fun v rest _ _ hw => ?_, fun es rest _ hne hw => ?_, fun fs rest _ hne hw => ?_⟩
    · exact absurd hw (by have := weight_pos v; omega)
    · exact absurd hw (by have := weightElems_pos es hne; omega)
    · exact absurd hw (by have := weightFields_pos fs hne; omega)
  | succ fuel ih =>
    obtain ⟨ihV, ihE, ihF⟩ := ih
    refine ⟨fun v rest hwf hrest hw => ?_, fun es rest hwf hne hw => ?_,
      fun fs rest hwf hne hw => ?_⟩
    · cases v with
      | jnull => simp [emit, scanValue]
      | jbool b => cases b <;> simp [emit, scanValue]
      | jnum t =>
        cases t with
        | nil => simp [canonDoc, canonNumTok] at hwf
        | cons c cs =>
          have hh := hwf
          simp only [canonDoc, canonNumTok, Bool.and_eq_true] at hh
          obtain ⟨hstart, hall⟩ := hh
          have hall2 : ∀ x ∈ c :: cs, numBodyChar x = true := by
            simpa [List.all_eq_true] using hall
          have hcne : c ≠ 'n' ∧ c ≠ 't' ∧ c ≠ 'f' ∧ c ≠ '"' ∧ c ≠ '[' ∧ c ≠ '{' := by
            rcases (by simpa [numHeadChar] using hstart :
                c.isDigit = true ∨ c = '-') with hd | hd
            · refine ⟨?_, ?_, ?_, ?_, ?_, ?_⟩ <;>
                (intro he; rw [he] at hd; exact absurd hd (by decide))
            · subst hd
              exact ⟨by decide, by decide, by decide, by decide, by decide, by decide⟩
          have hspan := splitTok_exact numBodyChar (c :: cs) rest hall2 hrest
          show scanValue (fuel + 1) ((c :: cs) ++ rest) = some (.jnum (c :: cs), rest)
          simp only [List.cons_append] at hspan ⊢
          simp [scanValue, hcne.1, hcne.2.1, hcne.2.2.1, hcne.2.2.2.1,
            hcne.2.2.2.2.1, hcne.2.2.2.2.2, hstart, hspan.1, hspan.2]
      | jstr t =>
        have hall : ∀ x ∈ t, (fun ch => !(ch == '"')) x = true := by
          intro x hx
          have hs := hwf
          simp only [canonDoc, canonStrTok, List.all_eq_true] at hs
          exact plainChar_ne_quote (hs x hx)
        have hspan := splitTok_exact (fun ch => !(ch == '"')) t ('"' :: rest) hall rfl
        show scanValue (fuel + 1) (('"' :: t ++ ['"']) ++ rest) = some (.jstr t, rest)
        have harr : ('"' :: t ++ ['"']) ++ rest = '"' :: (t ++ '"' :: rest) := by simp
        rw [harr]
        simp [scanValue, hspan.1, hspan.2]
      | jarr es =>
        cases es with
        | nil =>
          show scanValue (fuel + 1) (('[' :: emitItems .nil ++ [']']) ++ rest)
              = some (.jarr .nil, rest)
          simp [emitItems, scanValue]
        | cons e tl =>
          have hwfe : canonDoc e = true ∧ canonItems tl = true := by
            simpa [canonDoc, canonItems, Bool.and_eq_true] using hwf
          have hwe : needItems (.cons e tl) ≤ fuel := by
            have hww := hw
            simp only [need] at hww
            omega
          have hE := ihE (.cons e tl) rest (by simp [canonItems, hwfe.1, hwfe.2])
            (by intro hh; exact JArrChain.noConfusion hh) hwe
          obtain ⟨c0, t0, hr0, hd0⟩ := render_head_ne e hwfe.1
          have hu : ∃ u, emitItems (.cons e tl) = c0 :: u := by
            cases tl <;> simp [emitItems, hr0]
          obtain ⟨u, hu⟩ := hu
          show scanValue (fuel + 1) (('[' :: emitItems (.cons e tl) ++ [']']) ++ rest)
              = some (.jarr (.cons e tl), rest)
          have harr : ('[' :: emitItems (.cons e tl) ++ [']']) ++ rest
              = '[' :: (emitItems (.cons e tl) ++ ']' :: rest) := by simp
          rw [harr, hu]
          rw [hu] at hE
          simp only [List.cons_append] at hE ⊢
          simp [scanValue, hd0.1, hE]
      | jobj fs =>
        cases fs with
        | nil =>
          show scanValue (fuel + 1) (('{' :: emitEntries .nil ++ ['}']) ++ rest)
              = some (.jobj .nil, rest)
          simp [emitEntries, scanValue]
        | cons k v tl =>
          have hwfp : canonKeyTok k = true ∧ canonDoc v = true ∧ canonEntries tl = true := by
            simpa [canonDoc, canonEntries, Bool.and_eq_true, and_assoc] using hwf
          have hwff : needEntries (.cons k v tl) ≤ fuel := by
            have hww := hw
            simp only [need] at hww
            omega
          have hF := ihF (.cons k v tl) rest
            (by simp [canonEntries, hwfp.1, hwfp.2.1, hwfp.2.2])
            (by intro hh; exact JObjChain.noConfusion hh) hwff
          have hu : ∃ u, emitEntries (.cons k v tl) = '"' :: u := by
            cases tl <;> simp [emitEntries]
          obtain ⟨u, hu⟩ := hu
          show scanValue (fuel + 1) (('{' :: emitEntries (.cons k v tl) ++ ['}']) ++ rest)
              = some (.jobj (.cons k v tl), rest)
          have harr : ('{' :: emitEntries (.cons k v tl) ++ ['}']) ++ rest
              = '{' :: (emitEntries (.cons k v tl) ++ '}' :: rest) := by simp
          rw [harr, hu]
          rw [hu] at hF
          simp only [List.cons_append] at hF ⊢
          simp [scanValue, hF]
    · cases es with
      | nil => exact absurd rfl hne
      | cons e tl =>
        have hwfe : canonDoc e = true ∧ canonItems tl = true := by
          simpa [canonItems, Bool.and_eq_true] using hwf
        cases tl with
        | nil =>
          show scanItems (fuel + 1) (emitItems (.cons e .nil) ++ ']' :: rest)
              = some (.cons e .nil, rest)
          have hwe : need e ≤ fuel := by
            have hww := hw
            simp only [needItems] at hww
            omega
          simp only [emitItems, scanItems,
            ihV e (']' :: rest) hwfe.1 rfl hwe]
        | cons e2 tl2 =>
          have hwe : need e ≤ fuel ∧ needItems (.cons e2 tl2) ≤ fuel := by
            have hww := hw
            simp only [needItems] at hww ⊢
            omega
          show scanItems (fuel + 1)
              ((emit e ++ ',' :: emitItems (.cons e2 tl2)) ++ ']' :: rest)
              = some (.cons e (.cons e2 tl2), rest)
          have harr : (emit e ++ ',' :: emitItems (.cons e2 tl2)) ++ ']' :: rest
              = emit e ++ ',' :: (emitItems (.cons e2 tl2) ++ ']' :: rest) := by simp
          rw [harr]
          simp only [scanItems,
            ihV e (',' :: (emitItems (.cons e2 tl2) ++ ']' :: rest)) hwfe.1
              rfl hwe.1,
            ihE (.cons e2 tl2) rest hwfe.2
              (by intro hh; exact JArrChain.noConfusion hh) hwe.2]
    · cases fs with
      | nil => exact absurd rfl hne
      | cons k v tl =>
        have hwfp : canonKeyTok k = true ∧ canonDoc v = true ∧ canonEntries tl = true := by
          simpa [canonEntries, Bool.and_eq_true, and_assoc] using hwf
        have hkall : ∀ x ∈ k, (fun ch => !(ch == '"')) x = true := by
          intro x hx
          have hk := hwfp.1
          simp only [canonKeyTok, canonStrTok, Bool.and_eq_true, List.all_eq_true] at hk
          exact plainChar_ne_quote (hk.1 x hx)
        cases tl with
        | nil =>
          have hwv : need v ≤ fuel := by
            have hww := hw
            simp only [needEntries] at hww
            omega
          show scanEntries (fuel + 1)
              (('"' :: k ++ '"' :: ':' :: emit v) ++ '}' :: rest)
              = some (.cons k v .nil, rest)
          have harr : ('"' :: k ++ '"' :: ':' :: emit v) ++ '}' :: rest
              = '"' :: (k ++ '"' :: ':' :: (emit v ++ '}' :: rest)) := by simp
          rw [harr]
          have hspan := splitTok_exact (fun ch => !(ch == '"')) k
            ('"' :: ':' :: (emit v ++ '}' :: rest)) hkall rfl
          simp only [scanEntries, hspan.2, hspan.1,
            ihV v ('}' :: rest) hwfp.2.1 rfl hwv]
        | cons k2 v2 tl2 =>
          have hwv : need v ≤ fuel ∧ needEntries (.cons k2 v2 tl2) ≤ fuel := by
            have hww := hw
            simp only [needEntries] at hww ⊢
            omega
          show scanEntries (fuel + 1)
              ((('"' :: k ++ '"' :: ':' :: emit v) ++
                ',' :: emitEntries (.cons k2 v2 tl2)) ++ '}' :: rest)
              = some (.cons k v (.cons k2 v2 tl2), rest)
          have harr : (('"' :: k ++ '"' :: ':' :: emit v) ++
                ',' :: emitEntries (.cons k2 v2 tl2)) ++ '}' :: rest
              = '"' :: (k ++ '"' :: ':' ::
                  (emit v ++ ',' :: (emitEntries (.cons k2 v2 tl2) ++ '}' :: rest))) := by
            simp
          rw [harr]
          have hspan := splitTok_exact (fun ch => !(ch == '"')) k
            ('"' :: ':' :: (emit v ++ ',' ::
              (emitEntries (.cons k2 v2 tl2) ++ '}' :: rest))) hkall rfl
          simp only [scanEntries, hspan.2, hspan.1,
            ihV v (',' :: (emitEntries (.cons k2 v2 tl2) ++ '}' :: rest)) hwfp.2.1
              rfl hwv.1,
            ihF (.cons k2 v2 tl2) rest hwfp.2.2
              (by intro hh; exact JObjChain.noConfusion hh) hwv.2]

mutual
theorem weight_le_render (v : JDoc) (h : canonDoc v = true) : need v ≤ (emit v).length := by
  cases v with
  | jnull => simp [need, emit]
  | jbool b => cases b <;> simp [need, emit]
  | jnum t =>
    cases t with
    | nil => simp [canonDoc, canonNumTok] at h
    | cons c cs => simp [need, emit]
  | jstr t => simp [need, emit]
  | jarr es =>
    have he := weightElems_le_render es (by simpa [canonDoc] using h)
    simp only [need, emit, List.length_cons, List.length_append]
    omega
  | jobj fs =>
    have he := weightFields_le_render fs (by simpa [canonDoc] using h)
    simp only [need, emit, List.length_cons, List.length_append]
    omega
theorem weightElems_le_render (es : JArrChain) (h : canonItems es = true) :
    needItems es ≤ (emitItems es).length + 1 := by
  cases es with
  | nil => simp [needItems, emitItems]
  | cons e tl =>
    have hp : canonDoc e = true ∧ canonItems tl = true := by
      simpa [canonItems, Bool.and_eq_true] using h
    have h1 := weight_le_render e hp.1
    cases tl with
    | nil => simp only [needItems, emitItems]; omega
    | cons e2 tl2 =>
      have h2 := weightElems_le_render (.cons e2 tl2) hp.2
      simp only [needItems, emitItems, List.length_append, List.length_cons] at h2 ⊢
      omega
theorem weightFields_le_render (fs : JObjChain) (h : canonEntries fs = true) :
    needEntries fs ≤ (emitEntries fs).length + 1 := by
  cases fs with
  | nil => simp [needEntries, emitEntries]
  | cons k v tl =>
    have hp : canonKeyTok k = true ∧ canonDoc v = true ∧ canonEntries tl = true := by
      simpa [canonEntries, Bool.and_eq_true, and_assoc] using h
    have h1 := weight_le_render v hp.2.1
    cases tl with
    | nil =>
      simp only [needEntries, emitEntries, List.length_append, List.length_cons]
      omega
    | cons k2 v2 tl2 =>
      have h2 := weightFields_le_render (.cons k2 v2 tl2) hp.2.2
      simp only [needEntries, emitEntries, List.length_append, List.length_cons] at h2 ⊢
      omega
end

theorem jsonParse_stringify (v : JDoc) (h : canonDoc v = true) :
    jsonParse (jsonStringify v) = some v := by
  have hfuel : need v ≤ (emit v).length + 1 := by
    have := weight_le_render v h
    omega
  have hmain := (parse_render ((emit v).length + 1)).1 v [] h rfl hfuel
  simp only [List.append_nil] at hmain
  simp only [jsonParse, jsonStringify]
  rw [hmain]

/-- C6: saving immediately after loading reproduces the persisted bytes:
for every stored string that is the serialization of a well-formed
document, `saveData` of `getStoredData` returns exactly that string. -/
theorem c6_save_load_byte_identical (v : JDoc) (h : canonDoc v = true) :
    saveData (getStoredData (some (jsonStringify v))) = some (jsonStringify v) := by
  have hne : jsonStringify v ≠ "" := by
    obtain ⟨c, t, hr, _⟩ := render_first v h
    intro hh
    have hd := congrArg String.data hh
    rw [show (jsonStringify v).data = emit v from rfl, hr] at hd
    simp at hd
  simp only [getStoredData, if_neg hne, jsonParse_stringify v h, Option.getD_some]
  rfl

/-- Witness for C6 at concrete input: the default record document is
well-formed and its persisted serialization survives a load/save cycle
byte for byte. -/
theorem c6_witness :
    canonDoc defaultDataJson = true ∧
    saveData (getStoredData (some (jsonStringify defaultDataJson)))
      = some (jsonStringify defaultDataJson) :=
  ⟨by decide, c6_save_load_byte_identical defaultDataJson (by decide)⟩

end Munshiji
